import Mathlib

/-!
Verification of the hcl data-ingestion core.

The development shallowly embeds the two core source files of the
repository, `src/data/schema.rs` and `src/data/fetcher.rs`:

* the schema layer (`Column`, `Schema`, `Schema.new`, `Schema.empty_set`,
  `Schema.slice`) mapping positional text fields onto the X / Epoch /
  series roles and converting rows into typed values;
* the fetch engine (`FetchMode`, `Fetcher.new`, `read_lines`,
  `read_batches`, `read_all`, `Fetcher.read`) grouping raw lines into
  datasets and emitting events.

Collaborator types that live outside the two provided files
(`app::settings::Column`, `data::series::{Series, SeriesSet, Slice}`,
`app::event_loop::Message`, source acquisition) are modelled from the
specification; each such definition is marked in its doc comment.

Machine floating point is modelled by the inductive `FVal`: an exact
rational for a successfully parsed decimal literal, plus explicit NaN and
infinity sentinels.  The claims under study concern routing of cells and
the NaN-on-parse-failure fallback, not rounding behaviour.
-/

namespace Hcl

/-- Modelled from the spec: `app::settings::Column` (the column selector;
`settings.rs` is not among the provided sources).  A tri-state matcher,
one of unset / by position / by exact title. -/
inductive Column where
  | None
  | Index (i : Nat)
  | Title (t : String)
deriving DecidableEq

/-- Modelled from the spec: `matches(title, position)` is false for an
unset selector, true for by-position iff the position equals the index,
and true for by-title iff the header field equals the string exactly
(case-sensitive). -/
def Column.matches : Column → String → Nat → Bool
  | Column.None, _, _ => false
  | Column.Index i, _, pos => pos == i
  | Column.Title s, t, _ => t == s

/-- `ColumnSchema` from `schema.rs`: which header field was claimed for a
role (title and position). -/
structure ColumnSchema where
  title : String
  index : Nat
deriving DecidableEq

/-- `Schema` from `schema.rs`: optional X and Epoch roles plus the
remaining series titles. -/
structure Schema where
  x : Option ColumnSchema
  epoch : Option ColumnSchema
  titles : List String
deriving DecidableEq

/-- One step of the `for_each` loop in `Schema::new`: test the X selector
first, then the Epoch selector, else append to the series titles. -/
def schemaStep (x epoch : Column) (res : Schema) (t : String) (i : Nat) : Schema :=
  if x.matches t i then { res with x := some ⟨t, i⟩ }
  else if epoch.matches t i then { res with epoch := some ⟨t, i⟩ }
  else { res with titles := res.titles ++ [t] }

/-- `Schema::new` from `schema.rs`: fold `schemaStep` over the header
fields zipped with their positions, starting from the default (role-less)
schema. -/
def Schema.new (x epoch : Column) (titles : List String) : Schema :=
  titles.enum.foldl (fun res p => schemaStep x epoch res p.2 p.1) ⟨none, none, []⟩

/-- The value type of a parsed numeric cell.  Models Rust `f64` results:
an exact rational for a parsed decimal literal, plus NaN and signed
infinity sentinels. -/
inductive FVal where
  | nan
  | inf (neg : Bool)
  | num (q : ℚ)
deriving DecidableEq

/-- Numeric value of a digit string (most significant first). -/
def digitsVal (cs : List Char) : Nat :=
  cs.foldl (fun a c => a * 10 + (c.toNat - 48)) 0

/-- The exact rational `± digits · 10 ^ shift` of a parsed decimal
literal (`digits` is the significand with the decimal point removed,
`shift` the exponent minus the number of fractional digits). -/
def decValue (neg : Bool) (digits : Nat) (shift : Int) : ℚ :=
  let m : Int := if neg then -(digits : Int) else (digits : Int)
  match shift with
  | Int.ofNat k => mkRat (m * ((10 ^ k : Nat) : Int)) 1
  | Int.negSucc k => mkRat m (10 ^ (k + 1))

/-- Parse the significand of a decimal literal: `Digits`, `Digits . Digits?`
or `. Digits`, returning the concatenated digits, the number of
fractional digits, and the unconsumed input. -/
def parseMantissa (cs : List Char) : Option (Nat × Nat × List Char) :=
  let ip := cs.takeWhile Char.isDigit
  let rest := cs.dropWhile Char.isDigit
  match rest with
  | '.' :: rest2 =>
      let fp := rest2.takeWhile Char.isDigit
      let rest3 := rest2.dropWhile Char.isDigit
      if ip.isEmpty && fp.isEmpty then none
      else some (digitsVal (ip ++ fp), fp.length, rest3)
  | _ => if ip.isEmpty then none else some (digitsVal ip, 0, rest)

/-- Parse the optional exponent part `("e"|"E") Sign? Digits` of a decimal
literal; the empty input means exponent zero. -/
def parseExp (cs : List Char) : Option Int :=
  match cs with
  | [] => some 0
  | c :: rest =>
      if c = 'e' ∨ c = 'E' then
        match rest with
        | '+' :: ds => if !ds.isEmpty && ds.all Char.isDigit then some (digitsVal ds : Int) else none
        | '-' :: ds => if !ds.isEmpty && ds.all Char.isDigit then some (-(digitsVal ds : Int)) else none
        | ds => if !ds.isEmpty && ds.all Char.isDigit then some (digitsVal ds : Int) else none
      else none

/-- Grammar of Rust `str::parse::<f64>`: optional sign, then one of the
keywords `inf` / `infinity` / `nan` (case-insensitive) or a decimal
significand with optional exponent.  The numeric value is kept as an
exact rational (overflow to infinity of huge literals is not modelled;
the claims do not depend on rounding). -/
def parseF64core (cs : List Char) : Option FVal :=
  let signed := match cs with
    | '+' :: rest => (false, rest)
    | '-' :: rest => (true, rest)
    | _ => (false, cs)
  let neg := signed.1
  let body := signed.2
  let low := body.map Char.toLower
  if low = "inf".toList ∨ low = "infinity".toList then some (FVal.inf neg)
  else if low = "nan".toList then some FVal.nan
  else
    match parseMantissa body with
    | none => none
    | some (d, flen, rest) =>
        match parseExp rest with
        | none => none
        | some e => some (FVal.num (decValue neg d (e - (flen : Int))))

/-- Entry point of the numeric cell parser (model of `v.parse::<f64>()`). -/
def parseF64 (s : String) : Option FVal :=
  parseF64core s.toList

/-- Model of Rust `str::trim`: remove leading and trailing whitespace. -/
def trimStr (s : String) : String :=
  String.mk (((s.toList.dropWhile Char.isWhitespace).reverse.dropWhile Char.isWhitespace).reverse)

/-- Modelled from the spec: `data::series::Series` (`series.rs` is not
among the provided sources) — a named, ordered sequence of numeric
values. -/
structure Series where
  title : String
  values : List FVal
deriving DecidableEq

/-- `Series::with_title` as used by `Schema::empty_set`. -/
def Series.with_title (t : String) : Series :=
  ⟨t, []⟩

/-- Modelled from the spec: `data::series::SeriesSet` (the
DatasetSkeleton) — optional epoch label, optional X column (title plus
its raw values), and the ordered series. -/
structure SeriesSet where
  epoch : Option String
  x : Option (String × List String)
  y : List Series
deriving DecidableEq

/-- Modelled from the spec: `data::series::Slice` (the RowRecord) —
optional raw X text, optional raw epoch text, and the ordered numeric
values of the remaining cells. -/
structure Slice where
  x : Option String
  epoch : Option String
  y : List FVal
deriving DecidableEq

/-- `Slice::default()`: everything absent / empty. -/
def Slice.defaultSlice : Slice :=
  ⟨none, none, []⟩

/-- Positionally append values to the series (extra values beyond the
last series are dropped, missing values leave a series unchanged). -/
def pushVals : List Series → List FVal → List Series
  | ss, [] => ss
  | [], _ => []
  | s :: ss, v :: vs => { s with values := s.values ++ [v] } :: pushVals ss vs

/-- Modelled from the spec: the append operation of `SeriesSet`
(`series.rs` is not among the provided sources).  A row record is folded
into the dataset: the epoch label is taken from the row once real data
arrives, the raw X value is appended to the X column when both are
present, and the numeric values are appended to the series positionally. -/
def SeriesSet.append_slice (ds : SeriesSet) (s : Slice) : SeriesSet :=
  { epoch := match s.epoch with
      | some e => some e
      | _ => ds.epoch
    x := match ds.x, s.x with
      | some (t, xs), some v => some (t, xs ++ [v])
      | xr, _ => xr
    y := pushVals ds.y s.y }

/-- `Schema::empty_set` from `schema.rs`: the stub dataset with the
correct number of empty series, epoch initially absent. -/
def Schema.empty_set (s : Schema) : SeriesSet :=
  { epoch := none
    x := s.x.map (fun x => (x.title, []))
    y := s.titles.map Series.with_title }

/-- Does the optional role claim position `i`? (the match-arm guards
`x.index == i` / `e.index == i` of `Schema::slice`). -/
def roleAt (c : Option ColumnSchema) (i : Nat) : Bool :=
  match c with
  | some cs => cs.index == i
  | _ => false

/-- One step of the `for_each` loop in `Schema::slice`: the X guard is
tested first, then the Epoch guard, else the cell is trimmed and parsed
as a decimal number, `NaN` substituting for a parse failure. -/
def sliceStep (s : Schema) (res : Slice) (i : Nat) (v : String) : Slice :=
  if roleAt s.x i then { res with x := some v }
  else if roleAt s.epoch i then { res with epoch := some v }
  else { res with y := res.y ++ [(parseF64 (trimStr v)).getD FVal.nan] }

/-- `Schema::slice` from `schema.rs`: fold `sliceStep` over the input
cells zipped with their positions, starting from the default slice. -/
def Schema.slice (s : Schema) (input : List String) : Slice :=
  input.enum.foldl (fun res p => sliceStep s res p.1 p.2) Slice.defaultSlice

/-- Transport error payload (message of a `std::io::Error`). -/
abbrev IOErr := String

/-- Structural line-parse error payload (message of a `csv::Error`). -/
abbrev CsvErr := String

/-- `FetcherError` from `fetcher.rs`: the transport/IO kind and the CSV
(structural line-parse) kind. -/
inductive FetcherError where
  | io (e : IOErr)
  | csv (e : CsvErr)
deriving DecidableEq

/-- Modelled from the spec: the `app::event_loop::Message` variants the
fetcher produces (`event_loop.rs` is not among the provided sources; the
payloads are fixed by the sends in `fetcher.rs`).  `Data` carries a
dataset (the empty skeleton in streaming mode / DatasetCreated, the full
dataset in snapshot mode / DatasetReady), `DataSlice` a row record
(RowAppended), `AppendDataSet` a completed batch (DatasetReady in batched
mode), `FetchError` a failed pass (FetchFailed). -/
inductive Message where
  | Data (ds : SeriesSet)
  | DataSlice (s : Slice)
  | AppendDataSet (ds : SeriesSet)
  | FetchError (e : FetcherError)
deriving DecidableEq

deriving instance DecidableEq for Except

/-- One item yielded by `BufReader::lines()`: a line of text or a
transport error. -/
abbrev LineItem := Except IOErr String

/-- `FetchMode` from `fetcher.rs`. -/
inductive FetchMode where
  | Incremental
  | Batch
  | Autorefresh
deriving DecidableEq

/-- Modelled from the spec: the fields of `app::settings::Settings`
consumed by `Fetcher::new` (`settings.rs` is not among the provided
sources): optional external command line, the X and Epoch column
selectors, and the refresh interval in nanoseconds (zero disables
Snapshot selection). -/
structure Settings where
  cmd : Option (List String)
  x : Column
  epoch : Column
  refresh_rate_nanos : Nat
deriving DecidableEq

/-- `Fetcher` from `fetcher.rs` (without the channel endpoint, which the
embedding replaces by returning the list of sent messages). -/
structure Fetcher where
  cmd : Option String
  x : Column
  epoch : Column
  mode : FetchMode
deriving DecidableEq

/-- `Fetcher::new` from `fetcher.rs`: joins the command words and derives
the mode once from the decision table
`match (refresh_rate.as_nanos() > 0, epoch != Column::None)`. -/
def Fetcher.new (s : Settings) : Fetcher :=
  { cmd := s.cmd.map (fun v => String.intercalate " " v)
    x := s.x
    epoch := s.epoch
    mode :=
      if s.refresh_rate_nanos > 0 then FetchMode.Autorefresh
      else if s.epoch ≠ Column.None then FetchMode.Batch
      else FetchMode.Incremental }

/-- Split a character list at every occurrence of a separator; the number
of fields is one more than the number of separators (so the empty input
yields one empty field, as Rust `split` does). -/
def splitCharAux (sep : Char) : List Char → List Char → List String
  | [], acc => [String.mk acc.reverse]
  | c :: rest, acc =>
      if c = sep then String.mk acc.reverse :: splitCharAux sep rest []
      else splitCharAux sep rest (c :: acc)

/-- Split a string at every occurrence of a separator character. -/
def splitChar (sep : Char) (s : String) : List String :=
  splitCharAux sep s.toList []

/-- Rust `l.split(',')`. -/
def splitComma (l : String) : List String :=
  splitChar ',' l

/-- `Fetcher::read_lines` from `fetcher.rs`, written as a state machine
over the line stream.  The state `none` is the head of the outer `while`
loop (the next line is a header); `some schema` is the inner `loop` of
the current batch.  A non-empty `Ok` data line is sent as a `DataSlice`;
the catch-all arm of the inner match (EOF, empty line — and also a read
error, whose item is consumed) breaks back to the outer loop.  A read
error at the header position propagates through `l?`. -/
def readLinesGo (x e : Column) : Option Schema → List LineItem → List Message × Except FetcherError Unit
  | _, [] => ([], Except.ok ())
  | none, Except.error er :: _ => ([], Except.error (FetcherError.io er))
  | none, Except.ok l :: rest =>
      let schema := Schema.new x e (splitComma l)
      let q := readLinesGo x e (some schema) rest
      (Message.Data schema.empty_set :: q.1, q.2)
  | some schema, Except.ok l :: rest =>
      if l = "" then readLinesGo x e none rest
      else
        let q := readLinesGo x e (some schema) rest
        (Message.DataSlice (schema.slice (splitComma l)) :: q.1, q.2)
  | some _, Except.error _ :: rest => readLinesGo x e none rest

/-- `Fetcher::read_lines` (entry point: the outer loop starts at a header). -/
def read_lines (x e : Column) (input : List LineItem) : List Message × Except FetcherError Unit :=
  readLinesGo x e none input

/-- `Fetcher::read_batches` from `fetcher.rs`, written as a state machine
over the line stream.  The state `none` is the head of the outer `while`
loop; `some (schema, data)` is the inner `loop`, `data` being the
accumulated batch.  A non-empty `Ok` data line is appended to `data`; the
catch-all arm (EOF, empty line — and also a read error, whose item is
consumed) flushes the batch as one `AppendDataSet` and breaks.  A read
error at the header position propagates through `l?`. -/
def readBatchesGo (x e : Column) : Option (Schema × SeriesSet) → List LineItem → List Message × Except FetcherError Unit
  | none, [] => ([], Except.ok ())
  | some (_, data), [] => ([Message.AppendDataSet data], Except.ok ())
  | none, Except.error er :: _ => ([], Except.error (FetcherError.io er))
  | none, Except.ok l :: rest =>
      let schema := Schema.new x e (splitComma l)
      readBatchesGo x e (some (schema, schema.empty_set)) rest
  | some (schema, data), Except.ok l :: rest =>
      if l = "" then
        let q := readBatchesGo x e none rest
        (Message.AppendDataSet data :: q.1, q.2)
      else readBatchesGo x e (some (schema, data.append_slice (schema.slice (splitComma l)))) rest
  | some (_, data), Except.error _ :: rest =>
      let q := readBatchesGo x e none rest
      (Message.AppendDataSet data :: q.1, q.2)

/-- `Fetcher::read_batches` (entry point). -/
def read_batches (x e : Column) (input : List LineItem) : List Message × Except FetcherError Unit :=
  readBatchesGo x e none input

/-- The `for l in lines` loop of `Fetcher::read_all`: every remaining
line (empty or not) is parsed and appended; a read error propagates
through `l?` before anything is sent. -/
def readAllRows (schema : Schema) (data : SeriesSet) : List LineItem → SeriesSet × Except FetcherError Unit
  | [] => (data, Except.ok ())
  | Except.ok l :: rest => readAllRows schema (data.append_slice (schema.slice (splitComma l))) rest
  | Except.error er :: _ => (data, Except.error (FetcherError.io er))

/-- `Fetcher::read_all` from `fetcher.rs`: the first line (if any) is the
header, all remaining lines are appended, and a single `Data` message is
sent at end of stream. -/
def read_all (x e : Column) (input : List LineItem) : List Message × Except FetcherError Unit :=
  match input with
  | [] => ([], Except.ok ())
  | Except.error er :: _ => ([], Except.error (FetcherError.io er))
  | Except.ok l :: rest =>
      let schema := Schema.new x e (splitComma l)
      match readAllRows schema schema.empty_set rest with
      | (_, Except.error er) => ([], Except.error er)
      | (data, Except.ok _) => ([Message.Data data], Except.ok ())

/-- `Fetcher::read_from` from `fetcher.rs`: dispatch on the mode fixed at
construction. -/
def Fetcher.read_from (f : Fetcher) (input : List LineItem) : List Message × Except FetcherError Unit :=
  match f.mode with
  | FetchMode.Incremental => read_lines f.x f.epoch input
  | FetchMode.Batch => read_batches f.x f.epoch input
  | FetchMode.Autorefresh => read_all f.x f.epoch input

/-- `Fetcher::read` from `fetcher.rs`.  Modelled from the spec: source
acquisition (`spawned_stdout` of a configured command, or process
standard input; `platform/exec.rs` is not among the provided sources) is
abstracted as an already-acquired outcome — either a transport error,
which propagates through `?` as an IO error, or the line stream the
source yields. -/
def Fetcher.read (f : Fetcher) (source : Except IOErr (List LineItem)) : List Message × Except FetcherError Unit :=
  match source with
  | Except.error er => ([], Except.error (FetcherError.io er))
  | Except.ok input => f.read_from input

/-- One trigger handled by the `FetcherLoop` worker thread: run
`Fetcher::read`; the messages sent during the pass are followed by a
single `FetchError` message iff the pass failed. -/
def fetcherPass (f : Fetcher) (source : Except IOErr (List LineItem)) : List Message :=
  match Fetcher.read f source with
  | (msgs, Except.ok _) => msgs
  | (msgs, Except.error e) => msgs ++ [Message.FetchError e]

/-- Rust `BufRead::lines()` over the full text: split at newlines, drop
the trailing empty fragment of a terminating newline, and strip a
trailing carriage return from each line. -/
def linesOfString (s : String) : List String :=
  if s = "" then []
  else
    let parts := splitChar '\n' s
    let parts := if s.toList.getLast? = some '\n' then parts.dropLast else parts
    parts.map (fun l =>
      if l.toList.getLast? = some '\r' then String.mk l.toList.dropLast else l)

/-- An error-free line stream read from a text input. -/
def okLines (s : String) : List LineItem :=
  (linesOfString s).map Except.ok

/-- Specification-side grouping of a text input into batches, written
from the spec's words: the next line is a header, the batch's rows are
the following non-empty lines, and the batch ends at an empty line or
end-of-input; if more lines remain a new header/batch cycle begins. -/
def specBatches : List String → List (String × List String)
  | [] => []
  | hdr :: rest =>
      (hdr, rest.takeWhile (fun l => l != "")) ::
        specBatches ((rest.dropWhile (fun l => l != "")).drop 1)
termination_by l => l.length
decreasing_by
  have h : ∀ (l : List String), (l.dropWhile (fun s => s != "")).length ≤ l.length := by
    intro l
    induction l with
    | nil => simp [List.dropWhile]
    | cons a t iht =>
        by_cases ha : (a != "") = true
        · simp only [List.dropWhile, ha, List.length_cons]
          omega
        · simp only [List.dropWhile, ha, List.length_cons]
          simp
  simp only [List.length_cons, List.length_drop]
  have := h rest
  omega

/-- Specification-side event sequence of a Streaming pass, written from
the spec's words: per batch, one DatasetCreated (`Data`) carrying the
empty skeleton built from the batch's header, then one RowAppended
(`DataSlice`) per row. -/
def specStreamEvents (x e : Column) (input : List String) : List Message :=
  (specBatches input).flatMap (fun b =>
    Message.Data (Schema.new x e (splitComma b.1)).empty_set ::
      b.2.map (fun l => Message.DataSlice ((Schema.new x e (splitComma b.1)).slice (splitComma l))))

/-- Specification-side event sequence of a Batched pass, written from
the spec's words: exactly one DatasetReady (`AppendDataSet`) per batch,
containing every row of the batch accumulated via the append operation,
with no intermediate events. -/
def specBatchEvents (x e : Column) (input : List String) : List Message :=
  (specBatches input).map (fun b =>
    Message.AppendDataSet
      (b.2.foldl
        (fun d l => d.append_slice ((Schema.new x e (splitComma b.1)).slice (splitComma l)))
        (Schema.new x e (splitComma b.1)).empty_set))

/-- The last field (in header order) satisfying a predicate, as a column
role; `none` when no field matches. -/
def lastRole (p : String → Nat → Bool) (l : List (Nat × String)) : Option ColumnSchema :=
  l.foldl (fun acc q => if p q.2 q.1 then some ⟨q.2, q.1⟩ else acc) none

/-- A read outcome is clean when no `FetchError` message was emitted
during the pass and any error result is of the transport/IO kind. -/
def cleanOut (r : List Message × Except FetcherError Unit) : Prop :=
  (∀ er, Message.FetchError er ∈ r.1 → False) ∧
  (∀ er, r.2 = Except.error er → ∃ m, er = FetcherError.io m)

theorem length_dropWhile_le (p : α → Bool) (l : List α) :
    (l.dropWhile p).length ≤ l.length := by
  induction l with
  | nil => simp [List.dropWhile]
  | cons a t iht =>
      by_cases ha : p a = true
      · simp only [List.dropWhile, ha, List.length_cons]
        omega
      · simp only [List.dropWhile, ha, List.length_cons]
        simp

theorem schemaStep_x (x e : Column) (r : Schema) (t : String) (i : Nat) :
    (schemaStep x e r t i).x = if x.matches t i then some ⟨t, i⟩ else r.x := by
  by_cases h1 : x.matches t i <;> by_cases h2 : e.matches t i <;>
    simp [schemaStep, h1, h2]

theorem schemaStep_epoch (x e : Column) (r : Schema) (t : String) (i : Nat) :
    (schemaStep x e r t i).epoch =
      if !(x.matches t i) && e.matches t i then some ⟨t, i⟩ else r.epoch := by
  by_cases h1 : x.matches t i <;> by_cases h2 : e.matches t i <;>
    simp [schemaStep, h1, h2]

theorem schemaStep_titles (x e : Column) (r : Schema) (t : String) (i : Nat) :
    (schemaStep x e r t i).titles =
      if !(x.matches t i) && !(e.matches t i) then r.titles ++ [t] else r.titles := by
  by_cases h1 : x.matches t i <;> by_cases h2 : e.matches t i <;>
    simp [schemaStep, h1, h2]

theorem newFold_x (x e : Column) (l : List (Nat × String)) :
    ∀ (acc : Schema),
      (l.foldl (fun res p => schemaStep x e res p.2 p.1) acc).x =
        l.foldl (fun o q => if x.matches q.2 q.1 then some ⟨q.2, q.1⟩ else o) acc.x := by
  induction l with
  | nil => intro acc; rfl
  | cons q t ih =>
      intro acc
      simp only [List.foldl_cons, ih, schemaStep_x]

theorem newFold_epoch (x e : Column) (l : List (Nat × String)) :
    ∀ (acc : Schema),
      (l.foldl (fun res p => schemaStep x e res p.2 p.1) acc).epoch =
        l.foldl
          (fun o q => if !(x.matches q.2 q.1) && e.matches q.2 q.1 then some ⟨q.2, q.1⟩ else o)
          acc.epoch := by
  induction l with
  | nil => intro acc; rfl
  | cons q t ih =>
      intro acc
      simp only [List.foldl_cons, ih, schemaStep_epoch]

theorem newFold_titles (x e : Column) (l : List (Nat × String)) :
    ∀ (acc : Schema),
      (l.foldl (fun res p => schemaStep x e res p.2 p.1) acc).titles =
        acc.titles ++
          (l.filter (fun q => !(x.matches q.2 q.1) && !(e.matches q.2 q.1))).map Prod.snd := by
  induction l with
  | nil => intro acc; simp
  | cons q t ih =>
      intro acc
      by_cases hq : (!(x.matches q.2 q.1) && !(e.matches q.2 q.1)) = true
      · simp [List.foldl_cons, ih, schemaStep_titles, List.filter_cons, hq]
      · simp [List.foldl_cons, ih, schemaStep_titles, List.filter_cons, hq]

theorem new_x_eq (x e : Column) (ts : List String) :
    (Schema.new x e ts).x = lastRole (fun t i => x.matches t i) ts.enum := by
  unfold Schema.new lastRole
  rw [newFold_x]

theorem new_epoch_eq (x e : Column) (ts : List String) :
    (Schema.new x e ts).epoch =
      lastRole (fun t i => !(x.matches t i) && e.matches t i) ts.enum := by
  unfold Schema.new lastRole
  rw [newFold_epoch]

theorem new_titles_eq (x e : Column) (ts : List String) :
    (Schema.new x e ts).titles =
      (ts.enum.filter (fun q => !(x.matches q.2 q.1) && !(e.matches q.2 q.1))).map Prod.snd := by
  unfold Schema.new
  rw [newFold_titles]
  rfl

theorem lastRole_fold_spec (p : String → Nat → Bool) (l : List (Nat × String)) :
    ∀ (o : Option ColumnSchema) (c : ColumnSchema),
      l.foldl (fun acc q => if p q.2 q.1 then some ⟨q.2, q.1⟩ else acc) o = some c →
        o = some c ∨ (p c.title c.index = true ∧ (c.index, c.title) ∈ l) := by
  induction l with
  | nil => intro o c h; exact Or.inl h
  | cons q t ih =>
      intro o c h
      rcases ih _ c h with h1 | ⟨h2, h3⟩
      · by_cases hq : p q.2 q.1 = true
        · simp only [hq, if_pos] at h1
          refine Or.inr ⟨?_, ?_⟩
          · cases h1
            simpa using hq
          · cases h1
            simp
        · simp only [hq] at h1
          simp only [if_neg, Bool.not_eq_true] at h1
          exact Or.inl (by simpa using h1)
      · exact Or.inr ⟨h2, List.mem_cons_of_mem _ h3⟩

theorem lastRole_mem (p : String → Nat → Bool) (l : List (Nat × String)) (c : ColumnSchema)
    (h : lastRole p l = some c) :
    p c.title c.index = true ∧ (c.index, c.title) ∈ l := by
  rcases lastRole_fold_spec p l none c h with h1 | h2
  · cases h1
  · exact h2

theorem mem_enum_getElem {l : List String} {i : Nat} {a : String}
    (h : (i, a) ∈ l.enum) : l[i]? = some a := by
  rw [List.enum_eq_enumFrom] at h
  rcases List.getElem?_of_mem h with ⟨m, hm⟩
  rw [List.getElem?_enumFrom] at hm
  rcases hml : l[m]? with _ | b
  · rw [hml] at hm
    simp at hm
  · rw [hml] at hm
    have hm2 : some (0 + m, b) = some (i, a) := hm
    injection hm2 with hmk
    have h1 : 0 + m = i := congrArg Prod.fst hmk
    have h2 : b = a := congrArg Prod.snd hmk
    rw [← h1]
    simpa [h2] using hml

theorem enumFrom_concat (l : List String) (a : String) :
    ∀ (n : Nat), List.enumFrom n (l ++ [a]) = List.enumFrom n l ++ [(n + l.length, a)] := by
  induction l with
  | nil => intro n; simp [List.enumFrom]
  | cons b t ih =>
      intro n
      simp only [List.cons_append, List.enumFrom_cons, ih, List.length_cons]
      have h : n + 1 + t.length = n + (t.length + 1) := by omega
      rw [h]

theorem enum_concat (l : List String) (a : String) :
    (l ++ [a]).enum = l.enum ++ [(l.length, a)] := by
  rw [List.enum_eq_enumFrom, List.enum_eq_enumFrom, enumFrom_concat]
  simp

theorem slice_concat (s : Schema) (cells : List String) (v : String) :
    s.slice (cells ++ [v]) = sliceStep s (s.slice cells) cells.length v := by
  unfold Schema.slice
  rw [enum_concat, List.foldl_append]
  rfl

theorem sliceStep_x (s : Schema) (r : Slice) (i : Nat) (v : String) :
    (sliceStep s r i v).x = if roleAt s.x i then some v else r.x := by
  by_cases h1 : roleAt s.x i = true <;> by_cases h2 : roleAt s.epoch i = true <;>
    simp [sliceStep, h1, h2]

theorem sliceStep_epoch (s : Schema) (r : Slice) (i : Nat) (v : String) :
    (sliceStep s r i v).epoch =
      if !(roleAt s.x i) && roleAt s.epoch i then some v else r.epoch := by
  by_cases h1 : roleAt s.x i = true <;> by_cases h2 : roleAt s.epoch i = true <;>
    simp [sliceStep, h1, h2]

theorem sliceStep_y (s : Schema) (r : Slice) (i : Nat) (v : String) :
    (sliceStep s r i v).y =
      if !(roleAt s.x i) && !(roleAt s.epoch i) then
        r.y ++ [(parseF64 (trimStr v)).getD FVal.nan]
      else r.y := by
  by_cases h1 : roleAt s.x i = true <;> by_cases h2 : roleAt s.epoch i = true <;>
    simp [sliceStep, h1, h2]

theorem slice_x (s : Schema) (cells : List String) :
    (s.slice cells).x = s.x.bind (fun cx => cells[cx.index]?) := by
  induction cells using List.reverseRecOn with
  | nil =>
      rcases hx : s.x with _ | cx
      · simp [Schema.slice, Slice.defaultSlice]
      · simp [Schema.slice, Slice.defaultSlice]
  | append_singleton t a ih =>
      rw [slice_concat, sliceStep_x, ih]
      rcases hx : s.x with _ | cx
      · simp [roleAt]
      · simp only [roleAt, Option.some_bind]
        by_cases hi : cx.index = t.length
        · simp [hi, List.getElem?_concat_length]
        · have hne : (cx.index == t.length) = false := by simpa using hi
          rw [if_neg (by simp [hne])]
          rcases Nat.lt_or_ge cx.index t.length with hlt | hge
          · rw [List.getElem?_append, if_pos hlt]
          · rw [List.getElem?_append, if_neg (Nat.not_lt.mpr hge)]
            rw [List.getElem?_eq_none hge]
            rw [List.getElem?_eq_none
              (show (([a] : List String)).length ≤ cx.index - t.length by simp; omega)]

theorem roleAt_some (cs : ColumnSchema) (i : Nat) : roleAt (some cs) i = (cs.index == i) :=
  rfl

theorem roleAt_none (i : Nat) : roleAt none i = false :=
  rfl

theorem slice_epoch (s : Schema) (cells : List String) :
    (s.slice cells).epoch =
      s.epoch.bind (fun ce => if roleAt s.x ce.index then none else cells[ce.index]?) := by
  induction cells using List.reverseRecOn with
  | nil =>
      rcases he : s.epoch with _ | ce
      · simp [Schema.slice, Slice.defaultSlice]
      · by_cases hx : roleAt s.x ce.index = true <;>
          simp [Schema.slice, Slice.defaultSlice, hx]
  | append_singleton t a ih =>
      rw [slice_concat, sliceStep_epoch, ih]
      rcases he : s.epoch with _ | ce
      · simp [roleAt_none]
      · rw [roleAt_some]
        simp only [Option.some_bind]
        by_cases hx1 : roleAt s.x ce.index = true
        · rw [if_pos hx1, if_pos hx1]
          by_cases hi : ce.index = t.length
          · have hxt : roleAt s.x t.length = true := by rw [← hi]; exact hx1
            rw [if_neg (by simp [hxt])]
          · have hne : (ce.index == t.length) = false := by simpa using hi
            rw [if_neg (by simp [hne])]
        · have hx2 : roleAt s.x ce.index = false := by simpa using hx1
          rw [if_neg (show ¬(roleAt s.x ce.index = true) by simp [hx2]),
            if_neg (show ¬(roleAt s.x ce.index = true) by simp [hx2])]
          by_cases hi : ce.index = t.length
          · have hxt : roleAt s.x t.length = false := by rw [← hi]; exact hx2
            rw [if_pos
              (show ((!(roleAt s.x t.length)) && (ce.index == t.length)) = true by
                simp [hxt, hi])]
            rw [hi, List.getElem?_concat_length]
          · have hne : (ce.index == t.length) = false := by simpa using hi
            rw [if_neg
              (show ¬(((!(roleAt s.x t.length)) && (ce.index == t.length)) = true) by
                simp [hne])]
            rcases Nat.lt_or_ge ce.index t.length with hlt | hge
            · rw [List.getElem?_append, if_pos hlt]
            · rw [List.getElem?_append, if_neg (Nat.not_lt.mpr hge)]
              rw [List.getElem?_eq_none hge]
              rw [List.getElem?_eq_none
                (show (([a] : List String)).length ≤ ce.index - t.length by simp; omega)]

theorem slice_y (s : Schema) (cells : List String) :
    (s.slice cells).y =
      (cells.enum.filter (fun q => !(roleAt s.x q.1) && !(roleAt s.epoch q.1))).map
        (fun q => (parseF64 (trimStr q.2)).getD FVal.nan) := by
  induction cells using List.reverseRecOn with
  | nil => simp [Schema.slice, Slice.defaultSlice]
  | append_singleton t a ih =>
      rw [slice_concat, sliceStep_y, enum_concat, List.filter_append, List.map_append]
      by_cases hc : (!(roleAt s.x t.length) && !(roleAt s.epoch t.length)) = true
      · simp only [hc, if_pos, ih]
        simp [List.filter_cons, hc]
      · have hc2 : (!(roleAt s.x t.length) && !(roleAt s.epoch t.length)) = false := by
          simpa using hc
        simp only [hc2, Bool.false_eq_true, if_neg, ih]
        simp [List.filter_cons, hc2]

theorem readLinesGo_some_ok (x e : Column) (schema : Schema) :
    ∀ (rest : List String),
      readLinesGo x e (some schema) (rest.map Except.ok) =
        ((rest.takeWhile (fun l => l != "")).map
            (fun l => Message.DataSlice (schema.slice (splitComma l))) ++
          (readLinesGo x e none
            (((rest.dropWhile (fun l => l != "")).drop 1).map Except.ok)).1,
         (readLinesGo x e none
            (((rest.dropWhile (fun l => l != "")).drop 1).map Except.ok)).2) := by
  intro rest
  induction rest with
  | nil => simp [readLinesGo]
  | cons l t ih =>
      by_cases hl : l = ""
      · subst hl
        simp [readLinesGo, List.takeWhile_cons, List.dropWhile_cons]
      · have hpred : (l != "") = true := by simpa using hl
        simp only [List.map_cons, readLinesGo, if_neg hl]
        rw [ih]
        simp [List.takeWhile_cons, List.dropWhile_cons, hpred]

theorem read_lines_fueled (x e : Column) :
    ∀ (fuel : Nat) (input : List String), input.length ≤ fuel →
      read_lines x e (input.map Except.ok) = (specStreamEvents x e input, Except.ok ()) := by
  intro fuel
  induction fuel with
  | zero =>
      intro input h
      have h0 : input = [] := List.eq_nil_of_length_eq_zero (Nat.le_zero.mp h)
      subst h0
      simp [read_lines, readLinesGo, specStreamEvents, specBatches]
  | succ n ih =>
      intro input h
      match input with
      | [] => simp [read_lines, readLinesGo, specStreamEvents, specBatches]
      | hdr :: rest =>
          have hlen : ((rest.dropWhile (fun l => l != "")).drop 1).length ≤ n := by
            have h1 := length_dropWhile_le (fun l => l != "") rest
            simp only [List.length_drop]
            simp only [List.length_cons] at h
            omega
          have hih := ih _ hlen
          simp only [read_lines] at hih ⊢
          simp only [List.map_cons, readLinesGo]
          rw [readLinesGo_some_ok, hih]
          simp only [specStreamEvents]
          rw [show specBatches (hdr :: rest) =
              (hdr, rest.takeWhile (fun l => l != "")) ::
                specBatches ((rest.dropWhile (fun l => l != "")).drop 1) from by
            simp [specBatches]]
          simp [List.flatMap_cons, List.cons_append, List.append_assoc]

theorem readBatchesGo_some_ok (x e : Column) (schema : Schema) :
    ∀ (rest : List String) (d : SeriesSet),
      readBatchesGo x e (some (schema, d)) (rest.map Except.ok) =
        (Message.AppendDataSet
            ((rest.takeWhile (fun l => l != "")).foldl
              (fun acc l => acc.append_slice (schema.slice (splitComma l))) d) ::
          (readBatchesGo x e none
            (((rest.dropWhile (fun l => l != "")).drop 1).map Except.ok)).1,
         (readBatchesGo x e none
            (((rest.dropWhile (fun l => l != "")).drop 1).map Except.ok)).2) := by
  intro rest
  induction rest with
  | nil => intro d; simp [readBatchesGo]
  | cons l t ih =>
      intro d
      by_cases hl : l = ""
      · subst hl
        simp [readBatchesGo, List.takeWhile_cons, List.dropWhile_cons]
      · have hpred : (l != "") = true := by simpa using hl
        simp only [List.map_cons, readBatchesGo, if_neg hl]
        rw [ih]
        simp [List.takeWhile_cons, List.dropWhile_cons, hpred]

theorem read_batches_fueled (x e : Column) :
    ∀ (fuel : Nat) (input : List String), input.length ≤ fuel →
      read_batches x e (input.map Except.ok) = (specBatchEvents x e input, Except.ok ()) := by
  intro fuel
  induction fuel with
  | zero =>
      intro input h
      have h0 : input = [] := List.eq_nil_of_length_eq_zero (Nat.le_zero.mp h)
      subst h0
      simp [read_batches, readBatchesGo, specBatchEvents, specBatches]
  | succ n ih =>
      intro input h
      match input with
      | [] => simp [read_batches, readBatchesGo, specBatchEvents, specBatches]
      | hdr :: rest =>
          have hlen : ((rest.dropWhile (fun l => l != "")).drop 1).length ≤ n := by
            have h1 := length_dropWhile_le (fun l => l != "") rest
            simp only [List.length_drop]
            simp only [List.length_cons] at h
            omega
          have hih := ih _ hlen
          simp only [read_batches] at hih ⊢
          simp only [List.map_cons, readBatchesGo]
          rw [readBatchesGo_some_ok, hih]
          simp only [specBatchEvents]
          rw [show specBatches (hdr :: rest) =
              (hdr, rest.takeWhile (fun l => l != "")) ::
                specBatches ((rest.dropWhile (fun l => l != "")).drop 1) from by
            simp [specBatches]]
          simp [List.map_cons]

theorem readAllRows_ok (schema : Schema) :
    ∀ (rest : List String) (d : SeriesSet),
      readAllRows schema d (rest.map Except.ok) =
        (rest.foldl (fun acc l => acc.append_slice (schema.slice (splitComma l))) d,
         Except.ok ()) := by
  intro rest
  induction rest with
  | nil => intro d; simp [readAllRows]
  | cons l t ih => intro d; simp [readAllRows, List.foldl_cons, ih]

theorem read_all_ok (x e : Column) (hdr : String) (rest : List String) :
    read_all x e ((hdr :: rest).map Except.ok) =
      ([Message.Data
          (rest.foldl
            (fun acc l => acc.append_slice ((Schema.new x e (splitComma hdr)).slice (splitComma l)))
            (Schema.new x e (splitComma hdr)).empty_set)],
       Except.ok ()) := by
  simp only [List.map_cons, read_all]
  rw [readAllRows_ok]

theorem cleanOut_prepend (msg : Message) (r : List Message × Except FetcherError Unit)
    (hmsg : ∀ er, msg ≠ Message.FetchError er) (h : cleanOut r) :
    cleanOut (msg :: r.1, r.2) := by
  constructor
  · intro er hm
    rcases List.mem_cons.mp hm with h1 | h2
    · exact hmsg er h1.symm
    · exact h.1 er h2
  · exact h.2

theorem readLinesGo_clean (x e : Column) :
    ∀ (input : List LineItem) (st : Option Schema), cleanOut (readLinesGo x e st input) := by
  intro input
  induction input with
  | nil =>
      intro st
      cases st <;> exact ⟨fun er hm => by simp [readLinesGo] at hm,
        fun er h2 => by simp [readLinesGo] at h2⟩
  | cons item rest ih =>
      intro st
      cases st with
      | none =>
          cases item with
          | error er =>
              refine ⟨fun er2 hm => by simp [readLinesGo] at hm, fun er2 h2 => ⟨er, ?_⟩⟩
              simp [readLinesGo] at h2
              exact h2.symm
          | ok l =>
              have hr := ih (some (Schema.new x e (splitComma l)))
              simp only [readLinesGo]
              exact cleanOut_prepend _ _ (fun er2 h1 => by simp at h1) hr
      | some schema =>
          cases item with
          | error er => simpa [readLinesGo] using ih none
          | ok l =>
              by_cases hl : l = ""
              · subst hl
                simpa [readLinesGo] using ih none
              · have hr := ih (some schema)
                simp only [readLinesGo, if_neg hl]
                exact cleanOut_prepend _ _ (fun er2 h1 => by simp at h1) hr

theorem readBatchesGo_clean (x e : Column) :
    ∀ (input : List LineItem) (st : Option (Schema × SeriesSet)),
      cleanOut (readBatchesGo x e st input) := by
  intro input
  induction input with
  | nil =>
      intro st
      rcases st with _ | ⟨schema, data⟩
      · exact ⟨fun er hm => by simp [readBatchesGo] at hm,
          fun er h2 => by simp [readBatchesGo] at h2⟩
      · exact ⟨fun er hm => by simp [readBatchesGo] at hm,
          fun er h2 => by simp [readBatchesGo] at h2⟩
  | cons item rest ih =>
      intro st
      rcases st with _ | ⟨schema, data⟩
      · cases item with
        | error er =>
            refine ⟨fun er2 hm => by simp [readBatchesGo] at hm, fun er2 h2 => ⟨er, ?_⟩⟩
            simp [readBatchesGo] at h2
            exact h2.symm
        | ok l =>
            simpa only [readBatchesGo] using
              ih (some (Schema.new x e (splitComma l), (Schema.new x e (splitComma l)).empty_set))
      · cases item with
        | error er =>
            have hr := ih none
            simp only [readBatchesGo]
            exact cleanOut_prepend _ _ (fun er2 h1 => by simp at h1) hr
        | ok l =>
            by_cases hl : l = ""
            · subst hl
              have hr := ih none
              simp only [readBatchesGo, if_pos rfl]
              exact cleanOut_prepend _ _ (fun er2 h1 => by simp at h1) hr
            · simpa only [readBatchesGo, if_neg hl] using
                ih (some (schema, data.append_slice (schema.slice (splitComma l))))

theorem readAllRows_io (schema : Schema) :
    ∀ (input : List LineItem) (d : SeriesSet) (er : FetcherError),
      (readAllRows schema d input).2 = Except.error er → ∃ m, er = FetcherError.io m := by
  intro input
  induction input with
  | nil => intro d er h; simp [readAllRows] at h
  | cons item rest ih =>
      intro d er h
      cases item with
      | error e2 =>
          simp [readAllRows] at h
          exact ⟨e2, h.symm⟩
      | ok l =>
          simp only [readAllRows] at h
          exact ih _ er h

theorem read_all_clean (x e : Column) (input : List LineItem) :
    cleanOut (read_all x e input) := by
  match input with
  | [] => exact ⟨fun er hm => by simp [read_all] at hm, fun er h2 => by simp [read_all] at h2⟩
  | Except.error er :: rest =>
      refine ⟨fun er2 hm => by simp [read_all] at hm, fun er2 h2 => ⟨er, ?_⟩⟩
      simp [read_all] at h2
      exact h2.symm
  | Except.ok l :: rest =>
      simp only [read_all]
      rcases hr : readAllRows (Schema.new x e (splitComma l))
          (Schema.new x e (splitComma l)).empty_set rest with ⟨data, res⟩
      cases res with
      | error er =>
          refine ⟨fun er2 hm => by simp at hm, fun er2 h2 => ?_⟩
          have h3 : er = er2 := by simpa using h2
          subst h3
          exact readAllRows_io _ rest _ er (by rw [hr])
      | ok u => exact ⟨fun er2 hm => by simp at hm, fun er2 h2 => by simp at h2⟩

theorem read_clean (f : Fetcher) (source : Except IOErr (List LineItem)) :
    cleanOut (Fetcher.read f source) := by
  cases source with
  | error er =>
      refine ⟨fun er2 hm => by simp [Fetcher.read] at hm, fun er2 h2 => ⟨er, ?_⟩⟩
      simp [Fetcher.read] at h2
      exact h2.symm
  | ok input =>
      simp only [Fetcher.read, Fetcher.read_from]
      cases f.mode with
      | Incremental => exact readLinesGo_clean f.x f.epoch input none
      | Batch => exact readBatchesGo_clean f.x f.epoch input none
      | Autorefresh => exact read_all_clean f.x f.epoch input

/-- C1: the claim states that a transport failure during line reading —
in particular a read error on a data line inside a batch, in any mode —
makes `read` return an error.  The code behaves otherwise: in Batched and
Streaming modes the catch-all match arm (commented "This arm is EOF or
empty line") also captures an `Err` item, so the error is silently
consumed, the batch ends as if at end-of-input, and `read` returns Ok;
only Snapshot mode propagates a data-line read error. -/
theorem C1_data_line_read_error_swallowed :
    (read_batches Column.None Column.None
        [Except.ok "a,b", Except.ok "1,2", Except.error "boom"]).2 = Except.ok () ∧
    (read_batches Column.None Column.None
        [Except.ok "a,b", Except.ok "1,2", Except.error "boom"]).1 =
      [Message.AppendDataSet
        ⟨none, none, [⟨"a", [FVal.num 1]⟩, ⟨"b", [FVal.num 2]⟩]⟩] ∧
    (read_lines Column.None Column.None
        [Except.ok "a,b", Except.ok "1,2", Except.error "boom"]).2 = Except.ok () ∧
    (read_all Column.None Column.None
        [Except.ok "a,b", Except.ok "1,2", Except.error "boom"]).2 =
      Except.error (FetcherError.io "boom") := by
  decide

/-- C2: in Streaming mode, for every (error-free) input, the emitted
event sequence per pass is, for each batch, one DatasetCreated (`Data`)
carrying the empty skeleton built from the batch's header line followed
by one RowAppended (`DataSlice`) per subsequent non-empty line, the batch
ending at an empty line or end-of-input; and over the input
"a,b\n1,2\n3,4\n\nc,d\n5,6\n" the sequence is exactly
DatasetCreated(a,b empty), RowAppended(1,2), RowAppended(3,4),
DatasetCreated(c,d empty), RowAppended(5,6). -/
theorem C2_streaming_event_sequence :
    (∀ (x e : Column) (input : List String),
      read_lines x e (input.map Except.ok) = (specStreamEvents x e input, Except.ok ())) ∧
    read_lines Column.None Column.None (okLines "a,b\n1,2\n3,4\n\nc,d\n5,6\n") =
      ([Message.Data ⟨none, none, [⟨"a", []⟩, ⟨"b", []⟩]⟩,
        Message.DataSlice ⟨none, none, [FVal.num 1, FVal.num 2]⟩,
        Message.DataSlice ⟨none, none, [FVal.num 3, FVal.num 4]⟩,
        Message.Data ⟨none, none, [⟨"c", []⟩, ⟨"d", []⟩]⟩,
        Message.DataSlice ⟨none, none, [FVal.num 5, FVal.num 6]⟩], Except.ok ()) :=
  ⟨fun x e input => read_lines_fueled x e input.length input (Nat.le_refl _), by decide⟩

/-- C3: in Batched mode, for every (error-free) input, exactly one
DatasetReady (`AppendDataSet`) is emitted per batch boundary, containing
every row of the batch accumulated via the append operation, with no
intermediate events; and over "a,b\n1,2\n3,4\n\nc,d\n5,6\n" exactly two
such events are emitted, each containing both rows of its batch. -/
theorem C3_batched_event_sequence :
    (∀ (x e : Column) (input : List String),
      read_batches x e (input.map Except.ok) = (specBatchEvents x e input, Except.ok ())) ∧
    read_batches Column.None Column.None (okLines "a,b\n1,2\n3,4\n\nc,d\n5,6\n") =
      ([Message.AppendDataSet
          ⟨none, none, [⟨"a", [FVal.num 1, FVal.num 3]⟩, ⟨"b", [FVal.num 2, FVal.num 4]⟩]⟩,
        Message.AppendDataSet
          ⟨none, none, [⟨"c", [FVal.num 5]⟩, ⟨"d", [FVal.num 6]⟩]⟩], Except.ok ()) :=
  ⟨fun x e input => read_batches_fueled x e input.length input (Nat.le_refl _), by decide⟩

/-- C4 (amended): in Snapshot mode, one pass over any (error-free) input
whose first line is the header emits exactly one DatasetReady (`Data`)
event, a blank line never splits the dataset — but, contrary to the
original claim, every remaining line including a blank one is parsed and
appended as a data row (the blank line contributes the slice of the
single empty cell it splits into).  Concretely the spec's example input
"a,b\n1,2\n3,4\n" (which has no blank line) yields one event with both
rows. -/
theorem C4_snapshot_single_dataset :
    (∀ (x e : Column) (hdr : String) (rest : List String),
      read_all x e ((hdr :: rest).map Except.ok) =
        ([Message.Data
            (rest.foldl
              (fun acc l =>
                acc.append_slice ((Schema.new x e (splitComma hdr)).slice (splitComma l)))
              (Schema.new x e (splitComma hdr)).empty_set)],
         Except.ok ())) ∧
    read_all Column.None Column.None (okLines "a,b\n1,2\n3,4\n") =
      ([Message.Data
          ⟨none, none, [⟨"a", [FVal.num 1, FVal.num 3]⟩, ⟨"b", [FVal.num 2, FVal.num 4]⟩]⟩],
       Except.ok ()) :=
  ⟨read_all_ok, by decide⟩

/-- C4 counterexample: over "a,b\n1,2\n\n3,4\n" the single Snapshot
dataset contains a NaN value contributed by the blank line (series "a"
holds three values), refuting the claim that a blank line contributes no
row or value to the dataset. -/
theorem C4_blank_line_contributes :
    (read_all Column.None Column.None (okLines "a,b\n1,2\n\n3,4\n")).1 =
      [Message.Data
        ⟨none, none,
          [⟨"a", [FVal.num 1, FVal.nan, FVal.num 3]⟩, ⟨"b", [FVal.num 2, FVal.num 4]⟩]⟩] ∧
    (read_all Column.None Column.None (okLines "a,b\n1,2\n\n3,4\n")).1 ≠
      [Message.Data
        ⟨none, none, [⟨"a", [FVal.num 1, FVal.num 3]⟩, ⟨"b", [FVal.num 2, FVal.num 4]⟩]⟩] := by
  decide

/-- C5: the FetchMode is derived once at construction by the fixed
decision table — Snapshot (Autorefresh) iff the refresh interval is
positive, otherwise Batched iff an Epoch selector is configured,
otherwise Streaming (Incremental).  The `Fetcher` structure is immutable
in the embedding, so the mode never changes for the life of the
instance. -/
theorem C5_mode_decision_table (s : Settings) :
    ((Fetcher.new s).mode = FetchMode.Autorefresh ↔ 0 < s.refresh_rate_nanos) ∧
    ((Fetcher.new s).mode = FetchMode.Batch ↔
      (s.refresh_rate_nanos = 0 ∧ s.epoch ≠ Column.None)) ∧
    ((Fetcher.new s).mode = FetchMode.Incremental ↔
      (s.refresh_rate_nanos = 0 ∧ s.epoch = Column.None)) := by
  by_cases h1 : 0 < s.refresh_rate_nanos <;> by_cases h2 : s.epoch = Column.None <;>
    simp [Fetcher.new, h1, h2] <;> omega

/-- C6: for every Schema whose two roles (when both present) sit at
distinct positions — an invariant of every schema the program builds —
and every row, `slice` stores the cell at the X position as raw text
unmodified, stores the cell at the Epoch position as raw text unmodified,
and maps every other cell, in order, to its trimmed decimal parse with a
NaN sentinel substituted on failure.  `slice` is a total function, so a
malformed cell can neither fail the row nor drop any cell. -/
theorem C6_parse_row (s : Schema) (cells : List String)
    (hsep : ∀ cx ce, s.x = some cx → s.epoch = some ce → cx.index ≠ ce.index) :
    (s.slice cells).x = s.x.bind (fun cx => cells[cx.index]?) ∧
    (s.slice cells).epoch = s.epoch.bind (fun ce => cells[ce.index]?) ∧
    (s.slice cells).y =
      (cells.enum.filter (fun q => !(roleAt s.x q.1) && !(roleAt s.epoch q.1))).map
        (fun q => (parseF64 (trimStr q.2)).getD FVal.nan) := by
  refine ⟨slice_x s cells, ?_, slice_y s cells⟩
  rw [slice_epoch]
  rcases he : s.epoch with _ | ce
  · simp
  · simp only [Option.some_bind]
    rcases hx : s.x with _ | cx
    · simp [roleAt_none]
    · have hne : cx.index ≠ ce.index := hsep cx ce hx he
      rw [roleAt_some, if_neg (by simpa using hne)]

/-- C6 witness: the schema of header [a,b,c] with X at position 0 and
Epoch titled "b", applied to the row [1,foo,3]. -/
theorem C6_parse_row_witness :
    ((Schema.new (Column.Index 0) (Column.Title "b") ["a", "b", "c"]).slice
        ["1", "foo", "3"]).x =
      (Schema.new (Column.Index 0) (Column.Title "b") ["a", "b", "c"]).x.bind
        (fun cx => ["1", "foo", "3"][cx.index]?) ∧
    ((Schema.new (Column.Index 0) (Column.Title "b") ["a", "b", "c"]).slice
        ["1", "foo", "3"]).epoch =
      (Schema.new (Column.Index 0) (Column.Title "b") ["a", "b", "c"]).epoch.bind
        (fun ce => ["1", "foo", "3"][ce.index]?) ∧
    ((Schema.new (Column.Index 0) (Column.Title "b") ["a", "b", "c"]).slice
        ["1", "foo", "3"]).y =
      ((["1", "foo", "3"].enum.filter
          (fun q =>
            !(roleAt (Schema.new (Column.Index 0) (Column.Title "b") ["a", "b", "c"]).x q.1) &&
              !(roleAt (Schema.new (Column.Index 0) (Column.Title "b") ["a", "b", "c"]).epoch
                  q.1))).map
        (fun q => (parseF64 (trimStr q.2)).getD FVal.nan)) :=
  C6_parse_row (Schema.new (Column.Index 0) (Column.Title "b") ["a", "b", "c"])
    ["1", "foo", "3"]
    (by
      intro cx ce hx he
      have h1 : (Schema.new (Column.Index 0) (Column.Title "b") ["a", "b", "c"]).x =
          some ⟨"a", 0⟩ := by decide
      have h2 : (Schema.new (Column.Index 0) (Column.Title "b") ["a", "b", "c"]).epoch =
          some ⟨"b", 1⟩ := by decide
      rw [h1] at hx
      rw [h2] at he
      cases Option.some.inj hx
      cases Option.some.inj he
      decide)

/-- C7: for every selector configuration and every header (including the
empty one), the build is total, the series titles are exactly the header
fields matching neither selector, in header order; a field bound to the
X role satisfies the X selector, and a field bound to the Epoch role
satisfies the Epoch selector but not the X selector — the X selector is
tested first, so a field matching both is claimed by X only. -/
theorem C7_schema_build_routes (x e : Column) (ts : List String) :
    (Schema.new x e ts).titles =
      ((ts.enum.filter (fun q => !(x.matches q.2 q.1) && !(e.matches q.2 q.1))).map Prod.snd) ∧
    (match (Schema.new x e ts).x with
     | some c => x.matches c.title c.index = true
     | none => True) ∧
    (match (Schema.new x e ts).epoch with
     | some c => e.matches c.title c.index = true ∧ x.matches c.title c.index = false
     | none => True) := by
  refine ⟨new_titles_eq x e ts, ?_, ?_⟩
  · rcases hx : (Schema.new x e ts).x with _ | c
    · trivial
    · rw [new_x_eq] at hx
      exact (lastRole_mem _ _ _ hx).1
  · rcases he : (Schema.new x e ts).epoch with _ | c
    · trivial
    · rw [new_epoch_eq] at he
      have h := (lastRole_mem _ _ _ he).1
      simp only [Bool.and_eq_true, Bool.not_eq_true'] at h
      exact ⟨h.2, h.1⟩

/-- C8 counterexample: with the X selector by-title "b" over the header
[b,b], the field at position 0 matches the selector, yet the role is
bound to position 1 — the code binds the last matching field, not the
first. -/
theorem C8_first_match_refuted :
    (Column.Title "b").matches "b" 0 = true ∧
    (Schema.new (Column.Title "b") Column.None ["b", "b"]).x ≠ some ⟨"b", 0⟩ ∧
    (Schema.new (Column.Title "b") Column.None ["b", "b"]).x = some ⟨"b", 1⟩ := by
  decide

/-- C8 (amended): when more than one field satisfies a selector, the
LAST matching field in header order is bound to the role (each match
overwrites the previous one); at most one field occupies the role, since
the role is a single optional binding.  The X role binds the last field
matching the X selector; the Epoch role binds the last field matching
the Epoch selector among those not claimed by X. -/
theorem C8_last_match_wins (x e : Column) (ts : List String) :
    (Schema.new x e ts).x = lastRole (fun t i => x.matches t i) ts.enum ∧
    (Schema.new x e ts).epoch =
      lastRole (fun t i => !(x.matches t i) && e.matches t i) ts.enum :=
  ⟨new_x_eq x e ts, new_epoch_eq x e ts⟩

/-- C9: in every Schema produced by the builder with both roles present,
the two recorded positions are distinct; consequently `slice` assigns
each input cell to exactly one of x, epoch, or the values sequence — the
X cell raw, the Epoch cell raw, and the remaining cells parsed in input
order. -/
theorem C9_distinct_roles (x e : Column) (ts cells : List String)
    (cx ce : ColumnSchema)
    (hx : (Schema.new x e ts).x = some cx)
    (he : (Schema.new x e ts).epoch = some ce) :
    cx.index ≠ ce.index ∧
    ((Schema.new x e ts).slice cells).x = cells[cx.index]? ∧
    ((Schema.new x e ts).slice cells).epoch = cells[ce.index]? ∧
    ((Schema.new x e ts).slice cells).y =
      ((cells.enum.filter
          (fun q =>
            !(roleAt (Schema.new x e ts).x q.1) &&
              !(roleAt (Schema.new x e ts).epoch q.1))).map
        (fun q => (parseF64 (trimStr q.2)).getD FVal.nan)) := by
  have h1 := lastRole_mem _ _ _ (by rw [← new_x_eq]; exact hx)
  have h2 := lastRole_mem _ _ _ (by rw [← new_epoch_eq]; exact he)
  have hdist : cx.index ≠ ce.index := by
    intro hEq
    have hmem1 : ts[cx.index]? = some cx.title := mem_enum_getElem h1.2
    have hmem2 : ts[ce.index]? = some ce.title := mem_enum_getElem h2.2
    rw [hEq] at hmem1
    have htitle : cx.title = ce.title := Option.some.inj (hmem1.symm.trans hmem2)
    have hxm : x.matches ce.title ce.index = true := by
      rw [← htitle, ← hEq]
      exact h1.1
    have hnm : x.matches ce.title ce.index = false := by
      have h7 := h2.1
      simp only [Bool.and_eq_true, Bool.not_eq_true'] at h7
      exact h7.1
    rw [hxm] at hnm
    exact Bool.noConfusion hnm
  refine ⟨hdist, ?_, ?_, slice_y _ _⟩
  · rw [slice_x, hx]
    simp
  · rw [slice_epoch, he]
    simp only [Option.some_bind]
    rw [hx, roleAt_some, if_neg (by simpa using hdist)]

/-- C9 witness: X at position 0 and Epoch titled "b" over the header
[a,b,c] give distinct role positions 0 and 1; the row [1,2,3] is split
into x, epoch and values accordingly. -/
theorem C9_distinct_roles_witness :
    (ColumnSchema.mk "a" 0).index ≠ (ColumnSchema.mk "b" 1).index ∧
    ((Schema.new (Column.Index 0) (Column.Title "b") ["a", "b", "c"]).slice
        ["1", "2", "3"]).x =
      ["1", "2", "3"][(ColumnSchema.mk "a" 0).index]? ∧
    ((Schema.new (Column.Index 0) (Column.Title "b") ["a", "b", "c"]).slice
        ["1", "2", "3"]).epoch =
      ["1", "2", "3"][(ColumnSchema.mk "b" 1).index]? ∧
    ((Schema.new (Column.Index 0) (Column.Title "b") ["a", "b", "c"]).slice
        ["1", "2", "3"]).y =
      ((["1", "2", "3"].enum.filter
          (fun q =>
            !(roleAt (Schema.new (Column.Index 0) (Column.Title "b") ["a", "b", "c"]).x q.1) &&
              !(roleAt (Schema.new (Column.Index 0) (Column.Title "b") ["a", "b", "c"]).epoch
                  q.1))).map
        (fun q => (parseF64 (trimStr q.2)).getD FVal.nan)) :=
  C9_distinct_roles (Column.Index 0) (Column.Title "b") ["a", "b", "c"] ["1", "2", "3"]
    ⟨"a", 0⟩ ⟨"b", 1⟩ (by decide) (by decide)

/-- C10: every error outcome of `Fetcher.read`, and the payload of every
`FetchError` event emitted by a worker pass, is of the transport/IO
kind; the CSV variant of `FetcherError` is never constructed by any
operation of the core — splitting a line never produces an error. -/
theorem C10_errors_are_transport (f : Fetcher) (source : Except IOErr (List LineItem))
    (er : FetcherError)
    (h : (Fetcher.read f source).2 = Except.error er ∨
      Message.FetchError er ∈ fetcherPass f source) :
    ∃ m, er = FetcherError.io m := by
  have hc := read_clean f source
  rcases h with h1 | h2
  · exact hc.2 er h1
  · unfold fetcherPass at h2
    rcases hr : Fetcher.read f source with ⟨msgs, res⟩
    rw [hr] at h2 hc
    cases res with
    | ok u => exact (hc.1 er (by simpa using h2)).elim
    | error e2 =>
        simp only at h2
        rcases List.mem_append.mp h2 with h3 | h4
        · exact (hc.1 er h3).elim
        · have h5 : er = e2 := by
            have h6 : Message.FetchError er = Message.FetchError e2 := by simpa using h4
            injection h6
          subst h5
          exact hc.2 er rfl

/-- C10 witness: a failed source acquisition surfaces as an IO error. -/
theorem C10_errors_are_transport_witness :
    ∃ m, FetcherError.io "boom" = FetcherError.io m :=
  C10_errors_are_transport (Fetcher.new ⟨none, Column.None, Column.None, 0⟩)
    (Except.error "boom") (FetcherError.io "boom") (Or.inl (by decide))

end Hcl
